import Mathlib

/-!
Shallow embedding of the blocky chain/block commit pipeline
(src/src/Storage/SQLite.js, Chainy module: classes Queue, Transaction,
Block, Chain, together with the SQLite storage engine classes they call).

Machine numbers (indices, lengths, entropies, timestamps) are modelled as
Nat, the transfer counter `nom` as Int.  The external node-object-hash
library is modelled as an abstract `Hasher` record of functions; a
concrete executable instance (`demoHasher`) is used for witnesses.
Awaited storage promises that may reject are passed in as explicit
outcomes (a `reject : Bool` flag), matching the try/catch structure of
the JS source.
-/

/-- A value appearing in a hash input (JS: numbers, strings, null). -/
inductive HashVal where
  | num : Int → HashVal
  | str : String → HashVal
  | null : HashVal
deriving DecidableEq, Repr

/-- Render an optional string field (JS `null` vs a string) as a HashVal. -/
def optHashVal : Option String → HashVal
  | none => HashVal.null
  | some s => HashVal.str s

/-- The external hashing collaborator (node-object-hash).
`txHash` hashes the object {data, from, to, nom, timestamp};
`famHash` hashes {data, from, to, nom}; `blockHash` hashes the
array of block metadata values and transaction hashes. -/
structure Hasher where
  blockHash : List HashVal → String
  txHash : String → Option String → Option String → Int → Nat → String
  famHash : String → Option String → Option String → Int → String

/-- A chainy Transaction after construction.  `origin`/`destination`
embed the JS fields `from`/`to`; `hash` is `_hash`, `familiarHash` is
`_familiarHash`. -/
structure Transaction where
  data : String
  origin : Option String
  destination : Option String
  nom : Int
  timestamp : Nat
  hash : String
  familiarHash : String
deriving DecidableEq, Repr

/-- Validation errors raised by the Transaction constructor. -/
inductive TxError where
  | amountWithoutParties
  | invalidAccount
  | missingCounterparty
  | selfTransfer
deriving DecidableEq, Repr

/-- hex-character predicate for the account-id pattern [A-Fa-f0-9]. -/
def isHexChar (c : Char) : Bool :=
  ('0' ≤ c && c ≤ '9') || ('a' ≤ c && c ≤ 'f') || ('A' ≤ c && c ≤ 'F')

/-- Transaction._isValidAccount: JS `accountID.match('[A-Fa-f0-9]{64}')`
is an unanchored regex search, true iff the string contains a run of 64
consecutive hex characters. -/
def isValidAccount (s : String) : Bool :=
  (List.range (s.length + 1)).any (fun i =>
    decide (i + 64 ≤ s.length) && ((s.toList.drop i).take 64).all isHexChar)

/-- True when an optional account field is present but fails
_isValidAccount. -/
def presentInvalid : Option String → Bool
  | none => false
  | some s => !(isValidAccount s)

/-- Transaction constructor: validation guards in source order, then
calculateHash (which sets `_hash` and `_familiarHash`). -/
def transactionNew (H : Hasher) (data : String) (origin destination : Option String)
    (nom : Int) (timestamp : Nat) : Except TxError Transaction :=
  if nom > 0 && origin.isNone && destination.isNone then
    .error .amountWithoutParties
  else if presentInvalid origin then
    .error .invalidAccount
  else if presentInvalid destination then
    .error .invalidAccount
  else if destination.isSome && origin.isNone then
    .error .missingCounterparty
  else if destination.isNone && origin.isSome then
    .error .missingCounterparty
  else if destination.isSome && decide (destination = origin) then
    .error .selfTransfer
  else
    .ok { data := data, origin := origin, destination := destination,
          nom := nom, timestamp := timestamp,
          hash := H.txHash data origin destination nom timestamp,
          familiarHash := H.famHash data origin destination nom }

/-- One row of the chain-level `block` table:
(i PRIMARY KEY, hash UNIQUE, previousHash UNIQUE, length, entropy, timestamp). -/
structure BlockRow where
  hash : Option String
  previousHash : Option String
  length : Nat
  entropy : Nat
  timestamp : Nat
deriving DecidableEq, Repr

/-- The SQLite storage engine state: the chain `block` table (keyed by i),
the per-block `block_i` tables (transaction hashes in position order;
the full persisted record also carries from/to/nom/timestamp/data, which
no modelled operation reads back), and the `trans` index
(hash PRIMARY KEY, block, i). -/
structure Storage where
  blockTable : List (Nat × BlockRow)
  blockTx : List (Nat × List String)
  transIdx : List (String × Nat × Nat)
deriving DecidableEq, Repr

def emptyStorage : Storage := { blockTable := [], blockTx := [], transIdx := [] }

/-- Engine Block.load: SELECT * FROM block WHERE i = index LIMIT 1;
`none` models the empty metaData object `{}`. -/
def engineBlockLoad (st : Storage) (i : Nat) : Option BlockRow :=
  (st.blockTable.find? (fun e => e.fst = i)).map (·.snd)

/-- Engine Block.loadTransactionHashes: SELECT * FROM block_i ORDER BY i ASC. -/
def engineLoadTransactionHashes (st : Storage) (i : Nat) : List String :=
  ((st.blockTx.find? (fun e => e.fst = i)).map (·.snd)).getD []

/-- Replace the block_i table contents. -/
def updateBlockTx (st : Storage) (i : Nat) (rows : List String) : Storage :=
  { st with blockTx := st.blockTx.map (fun e => if e.fst = i then (i, rows) else e) }

/-- Engine Block.addTransactionToBlock: INSERT INTO block_i; the engine
catches its own SQL errors (unique hash index violation, unopened
handle) and returns false, leaving the table unchanged. -/
def engineAddTransactionToBlock (st : Storage) (i : Nat) (txHash : String) :
    Storage × Bool :=
  match (st.blockTx.find? (fun e => e.fst = i)).map (·.snd) with
  | none => (st, false)
  | some rows =>
    if rows.contains txHash then (st, false)
    else (updateBlockTx st i (rows ++ [txHash]), true)

/-- Engine Block.initialize: open, DROP TABLE IF EXISTS block_i, CREATE
TABLE block_i — the per-block table becomes empty. -/
def engineBlockInitialize (st : Storage) (i : Nat) : Storage :=
  { st with blockTx := (st.blockTx.filter (fun e => e.fst ≠ i)) ++ [(i, [])] }

/-- Sequential INSERTs into the `trans` index (hash is PRIMARY KEY);
aborts on the first duplicate, keeping earlier partial writes, like the
try/catch around the JS loop. -/
def insertTransRows (i : Nat) : Storage → List String → Nat → Storage × Bool
  | st, [], _ => (st, true)
  | st, h :: rest, pos =>
    if st.transIdx.any (fun r => r.fst = h) then (st, false)
    else insertTransRows i { st with transIdx := st.transIdx ++ [(h, i, pos)] } rest (pos + 1)

/-- Engine Block.commit: INSERT the metadata row into `block` (PRIMARY KEY
i, UNIQUE hash, UNIQUE previousHash — SQLite NULLs never conflict), then
insert one `trans` row per stored transaction hash; any SQL error is
caught and reported as false. -/
def engineCommit (st : Storage) (i : Nat) (row : BlockRow) : Storage × Bool :=
  if st.blockTable.any (fun e => e.fst = i) ||
     (row.hash.isSome && st.blockTable.any (fun e => e.snd.hash = row.hash)) ||
     (row.previousHash.isSome && st.blockTable.any (fun e => e.snd.previousHash = row.previousHash)) then
    (st, false)
  else
    let st1 := { st with blockTable := st.blockTable ++ [(i, row)] }
    insertTransRows i st1 (engineLoadTransactionHashes st1 i) 0

/-- Engine Chain.getLastBlock: SELECT * FROM block ORDER BY i DESC LIMIT 1. -/
def getLastBlock (st : Storage) : Option (Nat × BlockRow) :=
  st.blockTable.foldl
    (fun acc e => match acc with
      | none => some e
      | some m => if e.fst > m.fst then some e else some m)
    none

/-- A chainy Block instance.  Fields mirror the constructor:
_index, _length, _hash (null), _transactionHashArray,
_transactionFamiliarHashArray, previousHash (null), _entropy, timestamp. -/
structure ChainyBlock where
  index : Nat
  length : Nat
  hash : Option String
  txHashes : List String
  txFamiliarHashes : List String
  previousHash : Option String
  entropy : Nat
  timestamp : Nat
deriving DecidableEq, Repr

/-- chainy Block constructor (with the timestamp supplied explicitly;
the JS default is Date.now). -/
def chainyBlockNew (index : Nat) (timestamp : Nat) : ChainyBlock :=
  { index := index, length := 0, hash := none, txHashes := [],
    txFamiliarHashes := [], previousHash := none, entropy := 0,
    timestamp := timestamp }

/-- Block.metaData: [index, hash, previousHash, length, entropy, timestamp]. -/
def blockMetaData (blk : ChainyBlock) : List HashVal :=
  [ HashVal.num blk.index, optHashVal blk.hash, optHashVal blk.previousHash,
    HashVal.num blk.length, HashVal.num blk.entropy, HashVal.num blk.timestamp ]

/-- JS Array.prototype.splice(start, 1): removes one element; a negative
start counts from the end (clamped at 0). -/
def jsSpliceRemove1 {α : Type} (l : List α) (start : Int) : List α :=
  let s : Nat := if start < 0 then ((l.length : Int) + start).toNat
                 else min start.toNat l.length
  l.take s ++ l.drop (s + 1)

/-- First index of an element in a list, if present. -/
def firstIdx : List String → String → Option Nat
  | [], _ => none
  | a :: rest, x => if a = x then some 0 else (firstIdx rest x).map (· + 1)

/-- JS Array.prototype.indexOf: first index of the element, -1 if absent. -/
def jsIndexOf (l : List String) (x : String) : Int :=
  match firstIdx l x with
  | some i => (i : Int)
  | none => -1

/-- The per-fingerprint step of Block.commit's pending-pool cleanup:
`pool.splice(pool.indexOf(h), 1)`. -/
def pendingRemove (pool : List String) (h : String) : List String :=
  jsSpliceRemove1 pool (jsIndexOf pool h)

/-- Block.calculateHash(force): reload `_transactionHashArray` from
storage when forced or when its length disagrees with `_length`
(`this._block` is set in the constructor and never null); then hash the
metaData with the stale hash field spliced out, concatenated with the
transaction hashes. -/
def chainyCalculateHash (H : Hasher) (st : Storage) (force : Bool)
    (blk : ChainyBlock) : ChainyBlock :=
  let blk :=
    if force || blk.txHashes.length != blk.length then
      { blk with txHashes := engineLoadTransactionHashes st blk.index }
    else blk
  let withoutHashMetaData := jsSpliceRemove1 (blockMetaData blk) 1
  { blk with
    hash := some (H.blockHash (withoutHashMetaData ++ blk.txHashes.map HashVal.str)) }

/-- Block._proofOfWork with a powHashPrefix: loop of calculateHash and
entropy increments until the hash starts with the prefix.  The JS loop
is unbounded; `fuel` bounds the modelled search, `none` meaning the
bound was hit.  Also returns how many times calculateHash ran. -/
def powLoop (H : Hasher) (st : Storage) (p : String) :
    ChainyBlock → Nat → Option (ChainyBlock × Nat)
  | _, 0 => none
  | blk, fuel + 1 =>
    let blk := chainyCalculateHash H st false blk
    if (blk.hash.getD "").take p.length = p then some (blk, 1)
    else
      match powLoop H st p { blk with entropy := blk.entropy + 1 } fuel with
      | none => none
      | some (b, n) => some (b, n + 1)

/-- Block._proofOfWork: search when a prefix is given, otherwise a single
calculateHash. -/
def proofOfWork (H : Hasher) (st : Storage) (powHashPrefix : Option String)
    (blk : ChainyBlock) (fuel : Nat) : Option (ChainyBlock × Nat) :=
  match powHashPrefix with
  | some p => powLoop H st p blk fuel
  | none => some (chainyCalculateHash H st false blk, 1)

/-- Block.build: set previousHash and entropy, then run the
proof-of-work. -/
def chainyBuild (H : Hasher) (st : Storage) (blk : ChainyBlock)
    (previousHash : Option String) (entropy : Nat)
    (powHashPrefix : Option String) (fuel : Nat) : Option (ChainyBlock × Nat) :=
  proofOfWork H st powHashPrefix
    { blk with previousHash := previousHash, entropy := entropy } fuel

/-- Block.load (chainy): the engine row for this index (whose stored
index always equals the queried one, so the JS index check reduces to
row existence); on success, overwrite the metadata fields and reload the
transaction hashes, else return false leaving the block unchanged. -/
def chainyLoad (st : Storage) (blk : ChainyBlock) : ChainyBlock × Bool :=
  match engineBlockLoad st blk.index with
  | none => (blk, false)
  | some row =>
    let blk1 := { blk with hash := row.hash, previousHash := row.previousHash,
                           length := row.length, entropy := row.entropy,
                           timestamp := row.timestamp }
    ({ blk1 with txHashes := engineLoadTransactionHashes st blk1.index }, true)

/-- Block.commit (chainy): persist the metadata row through the engine,
then unconditionally splice each familiar hash of the block out of the
chain's `_pendingPool`, and return the engine's success flag. -/
def chainyCommit (st : Storage) (pendingPool : List String)
    (blk : ChainyBlock) : Storage × List String × Bool :=
  let r := engineCommit st blk.index
    { hash := blk.hash, previousHash := blk.previousHash, length := blk.length,
      entropy := blk.entropy, timestamp := blk.timestamp }
  (r.fst, blk.txFamiliarHashes.foldl pendingRemove pendingPool, r.snd)

/-- Block.add (chainy): apply the chain's transaction prefix to the
transaction's hash, await the engine insert — whose boolean result the
JS ignores — and push hash/familiarHash, incrementing `_length`.
`reject` is the outcome of the awaited storage promise: a rejection hits
the catch and returns false with the block untouched. -/
def blockAdd (st : Storage) (blk : ChainyBlock) (tx : Transaction)
    (pfx : String) (reject : Bool) : Storage × ChainyBlock × Bool :=
  let tx := if pfx ≠ "" then { tx with hash := pfx ++ tx.hash } else tx
  if reject then (st, blk, false)
  else
    let r := engineAddTransactionToBlock st blk.index tx.hash
    (r.fst,
     { blk with txHashes := blk.txHashes ++ [tx.hash],
                txFamiliarHashes := blk.txFamiliarHashes ++ [tx.familiarHash],
                length := blk.length + 1 },
     true)

/-- Queue.push's worker body for one job: for index > 0, load the
previous block and recompute its hash with forced reload, rejecting if
the load fails; then build (seal) the block and commit it, resolving
with the commit's success flag (which the queue ignores).  Result
`none` = proof-of-work fuel exhausted; `some (st, pool, none)` = the
job rejected; `some (st, pool, some (b, ok))` = resolved with sealed
block b. -/
def queueBuildCommit (H : Hasher) (st : Storage) (pendingPool : List String)
    (blk : ChainyBlock) (previousHash : Option String) (randomEntropy : Nat)
    (powHashPrefix : Option String) (fuel : Nat) :
    Option (Storage × List String × Option (ChainyBlock × Bool)) :=
  match chainyBuild H st blk previousHash randomEntropy powHashPrefix fuel with
  | none => none
  | some (b, _) =>
    some ((chainyCommit st pendingPool b).fst,
          (chainyCommit st pendingPool b).snd.fst,
          some (b, (chainyCommit st pendingPool b).snd.snd))

def queueStep (H : Hasher) (st : Storage) (pendingPool : List String)
    (blk : ChainyBlock) (randomEntropy : Nat) (powHashPrefix : Option String)
    (fuel : Nat) : Option (Storage × List String × Option (ChainyBlock × Bool)) :=
  if blk.index > 0 then
    if (chainyLoad st (chainyBlockNew (blk.index - 1) 0)).snd then
      queueBuildCommit H st pendingPool blk
        (chainyCalculateHash H st true
          (chainyLoad st (chainyBlockNew (blk.index - 1) 0)).fst).hash
        randomEntropy powHashPrefix fuel
    else some (st, pendingPool, none)
  else
    queueBuildCommit H st pendingPool blk none randomEntropy powHashPrefix fuel

/-- The chainy Chain state: option fields, the two pools
(`_transactionPool` of queued transactions, `_pendingPool` of in-flight
familiar fingerprints), the working block, the commit queue's pending
jobs (block and its random entropy seed), emitted events, and the
`_length` counter (`len`).  `seeds` feeds Math.random for block
finalization, `rejects` the outcomes of awaited storage-insert promises,
`clock` the Date.now timestamps of newly opened blocks. -/
structure ChainState where
  maxBlockTransactions : Nat
  powHashPrefix : Option String
  transactionPrefix : String
  transactionPool : List Transaction
  pendingPool : List String
  workingBlock : ChainyBlock
  submitted : List (ChainyBlock × Nat)
  blockSubmitEvents : List Nat
  blockCommitEvents : List Nat
  blockCommitErrorEvents : List Nat
  queueEmptyEvents : Nat
  len : Nat
  seeds : List Nat
  rejects : List Bool
  clock : Nat
deriving DecidableEq, Repr

/-- Chain storage plus chain object state. -/
structure Sys where
  storage : Storage
  cs : ChainState
deriving DecidableEq, Repr

/-- Result of the `_processTransactionPool` while-loop. -/
structure DrainResult where
  pool : List Transaction
  st : Storage
  wb : ChainyBlock
  rejects : List Bool
  completed : Bool
deriving DecidableEq, Repr

/-- The while-loop of Chain._processTransactionPool: shift transactions
off the pool and add them to the working block while the pool is
non-empty and fewer than maxBlockTransactions were taken; a failed add
returns early (completed = false). -/
def drainLoop (maxBT : Nat) (pfx : String) :
    List Transaction → Storage → ChainyBlock → List Bool → Nat → DrainResult
  | [], st, wb, rejects, _ =>
    { pool := [], st := st, wb := wb, rejects := rejects, completed := true }
  | t :: rest, st, wb, rejects, count =>
    if count < maxBT then
      match blockAdd st wb t pfx (rejects.headD false) with
      | (st', wb', false) =>
        { pool := rest, st := st', wb := wb', rejects := rejects.tail,
          completed := false }
      | (st', wb', true) =>
        drainLoop maxBT pfx rest st' wb' rejects.tail (count + 1)
    else
      { pool := t :: rest, st := st, wb := wb, rejects := rejects,
        completed := true }

/-- Chain._processTransactionPool: run the drain loop; if it completed,
run _createNewBlock — _finalizeBlock pushes the working block onto the
commit queue with a fresh random entropy seed and emits blockSubmit,
then the working block is replaced by a freshly initialized block at the
next index.  The boolean result (JS: undefined on abort, true on
completion) is ignored by the caller. -/
def drainOf (sys : Sys) : DrainResult :=
  drainLoop sys.cs.maxBlockTransactions sys.cs.transactionPrefix
    sys.cs.transactionPool sys.storage sys.cs.workingBlock sys.cs.rejects 0

/-- The system right after the drain loop, before any rotation. -/
def afterDrain (sys : Sys) : Sys :=
  { storage := (drainOf sys).st,
    cs := { sys.cs with transactionPool := (drainOf sys).pool,
                        workingBlock := (drainOf sys).wb,
                        rejects := (drainOf sys).rejects } }

/-- _createNewBlock after a completed drain: _finalizeBlock pushes the
full working block `wb` onto the commit queue with a fresh random
entropy seed and emits blockSubmit, then the working block is replaced
by a freshly initialized block at the next index. -/
def finalizeAndRotate (sys : Sys) (wb : ChainyBlock) : Sys :=
  { storage := engineBlockInitialize sys.storage (wb.index + 1),
    cs := { sys.cs with
      submitted := sys.cs.submitted ++ [(wb, sys.cs.seeds.headD 0)],
      seeds := sys.cs.seeds.tail,
      blockSubmitEvents := sys.cs.blockSubmitEvents ++ [wb.index],
      workingBlock := chainyBlockNew (wb.index + 1) sys.cs.clock,
      clock := sys.cs.clock + 1 } }

def processTransactionPool (sys : Sys) : Sys × Bool :=
  if (drainOf sys).completed then
    (finalizeAndRotate (afterDrain sys) (drainOf sys).wb, true)
  else
    (afterDrain sys, false)

/-- The chain state after Chain.add pushes a non-duplicate transaction
into `_transactionPool` and its fingerprint into `_pendingPool`. -/
def chainAddState (sys : Sys) (tx : Transaction) : Sys :=
  { sys with cs := { sys.cs with
      transactionPool := sys.cs.transactionPool ++ [tx],
      pendingPool := sys.cs.pendingPool ++ [tx.familiarHash] } }

/-- Chain.add: reject duplicates whose familiar fingerprint is already
in `_pendingPool` (returning false, no error); otherwise push the
transaction and its fingerprint, drain the pool into the working block
once it reaches maxBlockTransactions, and return true — the drain's own
outcome is not consulted. -/
def chainAdd (sys : Sys) (tx : Transaction) : Sys × Bool :=
  if sys.cs.pendingPool.contains tx.familiarHash then (sys, false)
  else if (chainAddState sys tx).cs.transactionPool.length ≥
      (chainAddState sys tx).cs.maxBlockTransactions then
    ((processTransactionPool (chainAddState sys tx)).fst, true)
  else
    (chainAddState sys tx, true)

/-- The queue worker draining its jobs in submission order, relaying the
chain's event handlers: a resolved job fires `success` (increment
`_length`, emit blockCommit), a rejected one fires `error` (emit
blockCommitError).  `none` = proof-of-work fuel exhausted. -/
def runJobs (H : Hasher) (fuel : Nat) :
    List (ChainyBlock × Nat) → Storage → ChainState → Option (Storage × ChainState)
  | [], st, cs => some (st, cs)
  | (blk, seed) :: rest, st, cs =>
    match queueStep H st cs.pendingPool blk seed cs.powHashPrefix fuel with
    | none => none
    | some (st', pool', none) =>
      runJobs H fuel rest st'
        { cs with pendingPool := pool',
                  blockCommitErrorEvents := cs.blockCommitErrorEvents ++ [blk.index] }
    | some (st', pool', some (b, _)) =>
      runJobs H fuel rest st'
        { cs with pendingPool := pool', len := cs.len + 1,
                  blockCommitEvents := cs.blockCommitEvents ++ [b.index] }

/-- Drain the commit queue completely; the queue's `end` event fires once
when it empties (emitting blockCommitQueueEmpty). -/
def runQueue (H : Hasher) (fuel : Nat) (sys : Sys) : Option Sys :=
  match runJobs H fuel sys.cs.submitted sys.storage { sys.cs with submitted := [] } with
  | none => none
  | some (st', cs') =>
    some { storage := st', cs := { cs' with queueEmptyEvents := cs'.queueEmptyEvents + 1 } }

/-- Chain.initialize: storage-level initialize (reload = false wipes all
chain artifacts), then _loadChain opens the working block after the last
committed index (or 0), initializing its per-block table.  The `_length`
counter comes from the constructor and starts at 0 either way. -/
def chainInitialize (reload : Bool) (st0 : Storage) (maxBT : Nat)
    (powHashPrefix : Option String) (pfx : String) (seeds : List Nat)
    (rejects : List Bool) (clock0 : Nat) : Sys :=
  let st1 := if reload then st0 else emptyStorage
  let wbIndex := match getLastBlock st1 with
    | some e => e.fst + 1
    | none => 0
  { storage := engineBlockInitialize st1 wbIndex,
    cs := { maxBlockTransactions := maxBT, powHashPrefix := powHashPrefix,
            transactionPrefix := pfx, transactionPool := [], pendingPool := [],
            workingBlock := chainyBlockNew wbIndex clock0, submitted := [],
            blockSubmitEvents := [], blockCommitEvents := [],
            blockCommitErrorEvents := [], queueEmptyEvents := 0,
            len := 0, seeds := seeds, rejects := rejects, clock := clock0 + 1 } }

/-- Number of committed block rows in the chain's block table. -/
def committedBlockCount (st : Storage) : Nat := st.blockTable.length

/-- Concrete executable hasher used for witnesses: renders its input
structurally. -/
def renderVal : HashVal → String
  | .num n => "n" ++ toString n
  | .str s => "s(" ++ s ++ ")"
  | .null => "x"

/-- Render an optional string the way demoHasher tags fields. -/
def renderOpt : Option String → String
  | none => "x"
  | some s => "s(" ++ s ++ ")"

/-- A concrete Hasher instance for witnesses and scenarios. -/
def demoHasher : Hasher :=
  { blockHash := fun l => "B" ++ String.join (l.map (fun v => renderVal v ++ ",")),
    txHash := fun d f t n ts =>
      "T" ++ d ++ "," ++ renderOpt f ++ "," ++ renderOpt t ++ "," ++ toString n
          ++ "," ++ toString ts,
    famHash := fun d f t n =>
      "F" ++ d ++ "," ++ renderOpt f ++ "," ++ renderOpt t ++ "," ++ toString n }


/-- A transaction with no parties and no transfer, as the tests build
them; its hashes are those the constructor computes with demoHasher. -/
def plainTx (d : String) (ts : Nat) : Transaction :=
  { data := d, origin := none, destination := none, nom := 0, timestamp := ts,
    hash := demoHasher.txHash d none none 0 ts,
    familiarHash := demoHasher.famHash d none none 0 }

lemma firstIdx_of_mem {l : List String} {x : String} (hx : x ∈ l) :
    ∃ i, firstIdx l x = some i := by
  induction l with
  | nil => simp at hx
  | cons a rest ih =>
    by_cases hax : a = x
    · exact ⟨0, by simp [firstIdx, hax]⟩
    · have hx' : x ∈ rest := by
        rcases List.mem_cons.mp hx with h | h
        · exact absurd h.symm hax
        · exact h
      obtain ⟨i, hi⟩ := ih hx'
      exact ⟨i + 1, by simp [firstIdx, hax, hi]⟩

lemma firstIdx_of_not_mem {l : List String} {x : String} (hx : x ∉ l) :
    firstIdx l x = none := by
  induction l with
  | nil => rfl
  | cons a rest ih =>
    have hax : a ≠ x := fun h => hx (h ▸ List.mem_cons_self a rest)
    have hx' : x ∉ rest := fun h => hx (List.mem_cons_of_mem a h)
    simp [firstIdx, hax, ih hx']

lemma firstIdx_lt_length {l : List String} {x : String} :
    ∀ {i : Nat}, firstIdx l x = some i → i < l.length := by
  induction l with
  | nil => intro i h; simp [firstIdx] at h
  | cons a rest ih =>
    intro i h
    by_cases hax : a = x
    · simp [firstIdx, hax] at h
      simp only [List.length_cons]
      omega
    · simp [firstIdx, hax] at h
      obtain ⟨j, hj, hji⟩ := h
      have := ih hj
      simp only [List.length_cons]
      omega

lemma jsSpliceRemove1_ofNat {α : Type} (l : List α) (i : Nat) (hi : i ≤ l.length) :
    jsSpliceRemove1 l (i : Int) = l.take i ++ l.drop (i + 1) := by
  unfold jsSpliceRemove1
  have h0 : ¬ ((i : Int) < 0) := by omega
  simp only [h0, if_false, Int.toNat_ofNat]
  rw [Nat.min_eq_left hi]

lemma take_drop_firstIdx_eq_erase {x : String} :
    ∀ {l : List String} {i : Nat}, firstIdx l x = some i →
      l.take i ++ l.drop (i + 1) = l.erase x := by
  intro l
  induction l with
  | nil => intro i h; simp [firstIdx] at h
  | cons a rest ih =>
    intro i h
    by_cases hax : a = x
    · simp [firstIdx, hax] at h
      subst h
      simp [List.erase_cons_head, hax]
    · simp [firstIdx, hax] at h
      obtain ⟨j, hj, hji⟩ := h
      subst hji
      simp only [List.take_succ_cons, List.drop_succ_cons, List.cons_append]
      rw [ih hj, List.erase_cons_tail]
      simp [hax]

lemma pendingRemove_of_mem {pool : List String} {h : String} (hm : h ∈ pool) :
    pendingRemove pool h = pool.erase h := by
  obtain ⟨i, hi⟩ := firstIdx_of_mem hm
  have hlt := firstIdx_lt_length hi
  have hs : pendingRemove pool h = pool.take i ++ pool.drop (i + 1) := by
    simp only [pendingRemove, jsIndexOf, hi]
    exact jsSpliceRemove1_ofNat pool i (le_of_lt hlt)
  rw [hs, take_drop_firstIdx_eq_erase hi]

lemma pendingRemove_of_not_mem {pool : List String} {h : String} (hm : h ∉ pool)
    (hne : pool ≠ []) : pendingRemove pool h = pool.dropLast := by
  have hlen : 1 ≤ pool.length := by
    cases pool with
    | nil => exact absurd rfl hne
    | cons a rest => simp
  simp only [pendingRemove, jsIndexOf, firstIdx_of_not_mem hm, jsSpliceRemove1]
  have hneg : (-1 : Int) < 0 := by norm_num
  simp only [hneg, if_true]
  have htn : ((pool.length : Int) + -1).toNat = pool.length - 1 := by omega
  rw [htn]
  have hdrop : pool.drop (pool.length - 1 + 1) = [] := by
    apply List.drop_eq_nil_of_le
    omega
  rw [hdrop, List.append_nil, ← List.dropLast_eq_take]

lemma chainyCalculateHash_fields (H : Hasher) (st : Storage) (force : Bool)
    (blk : ChainyBlock) :
    (chainyCalculateHash H st force blk).index = blk.index ∧
    (chainyCalculateHash H st force blk).length = blk.length ∧
    (chainyCalculateHash H st force blk).previousHash = blk.previousHash ∧
    (chainyCalculateHash H st force blk).entropy = blk.entropy ∧
    (chainyCalculateHash H st force blk).timestamp = blk.timestamp ∧
    (chainyCalculateHash H st force blk).txFamiliarHashes = blk.txFamiliarHashes ∧
    ∃ s, (chainyCalculateHash H st force blk).hash = some s := by
  unfold chainyCalculateHash
  by_cases hc : (force || blk.txHashes.length != blk.length) = true
  · simp [hc]
  · simp [hc]

lemma powLoop_inv (H : Hasher) (st : Storage) (p : String) :
    ∀ (fuel : Nat) (blk b : ChainyBlock) (n : Nat),
      powLoop H st p blk fuel = some (b, n) →
      b.previousHash = blk.previousHash ∧
      b.txFamiliarHashes = blk.txFamiliarHashes ∧
      b.index = blk.index ∧
      ∃ s, b.hash = some s ∧ s.take p.length = p := by
  intro fuel
  induction fuel with
  | zero => intro blk b n h; simp [powLoop] at h
  | succ m ih =>
    intro blk b n h
    obtain ⟨h1, h2, h3, h4, h5, h6, s, hs⟩ :=
      chainyCalculateHash_fields H st false blk
    simp only [powLoop] at h
    split at h
    · rename_i hcond
      obtain ⟨hb, hn⟩ := Prod.mk.injEq .. ▸ Option.some.injEq .. ▸ h
      · cases h
        refine ⟨h3, h6, h1, s, hs, ?_⟩
        rw [hs] at hcond
        simpa using hcond
    · rename_i hcond
      rcases hrec : powLoop H st p
          { chainyCalculateHash H st false blk with
            entropy := (chainyCalculateHash H st false blk).entropy + 1 } m with _ | ⟨b0, n0⟩
      · rw [hrec] at h; exact absurd h (by simp)
      · rw [hrec] at h
        simp only [Option.some.injEq, Prod.mk.injEq] at h
        obtain ⟨hb, hn⟩ := h
        obtain ⟨g1, g2, g3, gs⟩ := ih _ _ _ hrec
        subst hb
        exact ⟨by rw [g1]; exact h3, by rw [g2]; exact h6, by rw [g3]; exact h1, gs⟩

lemma proofOfWork_inv (H : Hasher) (st : Storage) (pfx : Option String)
    (blk b : ChainyBlock) (n : Nat) (fuel : Nat)
    (h : proofOfWork H st pfx blk fuel = some (b, n)) :
    b.previousHash = blk.previousHash ∧ b.txFamiliarHashes = blk.txFamiliarHashes ∧
    b.index = blk.index := by
  cases pfx with
  | none =>
    simp only [proofOfWork, Option.some.injEq, Prod.mk.injEq] at h
    obtain ⟨hb, _⟩ := h
    obtain ⟨h1, h2, h3, h4, h5, h6, _⟩ := chainyCalculateHash_fields H st false blk
    subst hb
    exact ⟨h3, h6, h1⟩
  | some p =>
    obtain ⟨g1, g2, g3, _⟩ := powLoop_inv H st p fuel blk b n h
    exact ⟨g1, g2, g3⟩

lemma chainyBuild_inv (H : Hasher) (st : Storage) (blk : ChainyBlock)
    (ph : Option String) (seed : Nat) (pfx : Option String) (fuel : Nat)
    (b : ChainyBlock) (n : Nat)
    (h : chainyBuild H st blk ph seed pfx fuel = some (b, n)) :
    b.previousHash = ph ∧ b.txFamiliarHashes = blk.txFamiliarHashes ∧
    b.index = blk.index := by
  obtain ⟨g1, g2, g3⟩ := proofOfWork_inv H st pfx _ b n fuel h
  exact ⟨g1, g2, g3⟩

/-- C9: loading a block whose index has no committed row in the chain's
block table returns false and leaves every field of the freshly
constructed chainy Block unchanged. -/
theorem C9_load_missing_row (st : Storage) (i ts : Nat)
    (h : engineBlockLoad st i = none) :
    chainyLoad st (chainyBlockNew i ts) = (chainyBlockNew i ts, false) := by
  unfold chainyLoad
  rw [show (chainyBlockNew i ts).index = i from rfl, h]

theorem C9_load_missing_row_witness :
    chainyLoad emptyStorage (chainyBlockNew 0 5) = (chainyBlockNew 0 5, false) :=
  C9_load_missing_row emptyStorage 0 5 rfl

/-- C10: Block.commit removes one pending-pool entry per transaction of
the block, by `pool.splice(pool.indexOf(fingerprint), 1)`: the first
occurrence when the fingerprint is present, the pool's last element when
it is absent from a non-empty pool, nothing on an empty pool; the pool
after commit is exactly the fold of this removal over the block's
familiar hashes, so all other fingerprints survive in order. -/
theorem C10_commit_pending_removal :
    (∀ (pool : List String) (h : String),
        (h ∈ pool → pendingRemove pool h = pool.erase h) ∧
        (h ∉ pool → pool ≠ [] → pendingRemove pool h = pool.dropLast) ∧
        (pendingRemove [] h = [])) ∧
    (∀ (st : Storage) (pool : List String) (blk : ChainyBlock),
        (chainyCommit st pool blk).snd.fst =
          blk.txFamiliarHashes.foldl pendingRemove pool) := by
  constructor
  · intro pool h
    exact ⟨fun hm => pendingRemove_of_mem hm,
           fun hm hne => pendingRemove_of_not_mem hm hne,
           rfl⟩
  · intro st pool blk
    rfl

theorem C10_commit_pending_removal_witness :
    pendingRemove ["p", "q"] "p" = ["p", "q"].erase "p" ∧
    pendingRemove ["p", "q"] "z" = ["p", "q"].dropLast :=
  ⟨(C10_commit_pending_removal.1 ["p", "q"] "p").1 (by decide),
   (C10_commit_pending_removal.1 ["p", "q"] "z").2.1 (by decide) (by decide)⟩

/-- C5: calculateHash(force) hashes exactly
[index, previousHash, length, entropy, timestamp] — the stale hash field
spliced out — concatenated with the ordered transaction-hash list, and
reloads that list from storage exactly when force is set or the
in-memory list length disagrees with the block's length counter. -/
theorem C5_calculate_hash (H : Hasher) (st : Storage) (force : Bool)
    (blk : ChainyBlock) :
    chainyCalculateHash H st force blk =
      { blk with
        txHashes :=
          if force || blk.txHashes.length != blk.length
          then engineLoadTransactionHashes st blk.index else blk.txHashes,
        hash := some (H.blockHash
          ([HashVal.num blk.index, optHashVal blk.previousHash,
            HashVal.num blk.length, HashVal.num blk.entropy,
            HashVal.num blk.timestamp] ++
           (if force || blk.txHashes.length != blk.length
            then engineLoadTransactionHashes st blk.index
            else blk.txHashes).map HashVal.str)) } := by
  unfold chainyCalculateHash
  by_cases hc : (force || blk.txHashes.length != blk.length) = true
  · simp only [hc, if_true]
    simp [blockMetaData, jsSpliceRemove1]
  · simp only [hc, if_false]
    simp [blockMetaData, jsSpliceRemove1]

/-- C4: building with a non-null powHashPrefix yields, whenever the
search terminates, a block hash whose leading characters equal the
prefix; building with a null prefix computes the hash exactly once
(count 1) on the block whose entropy is the seed, unmodified. -/
theorem C4_build_proof_of_work (H : Hasher) (st : Storage) (blk : ChainyBlock)
    (ph : Option String) (seed fuel : Nat) :
    (∀ p b n, chainyBuild H st blk ph seed (some p) fuel = some (b, n) →
        ∃ s, b.hash = some s ∧ s.take p.length = p) ∧
    (chainyBuild H st blk ph seed none fuel =
        some (chainyCalculateHash H st false
          { blk with previousHash := ph, entropy := seed }, 1) ∧
      (chainyCalculateHash H st false
          { blk with previousHash := ph, entropy := seed }).entropy = seed) := by
  constructor
  · intro p b n h
    simp only [chainyBuild, proofOfWork] at h
    exact (powLoop_inv H st p fuel _ b n h).2.2.2
  · constructor
    · rfl
    · exact (chainyCalculateHash_fields H st false
        { blk with previousHash := ph, entropy := seed }).2.2.2.1

def c4Block : ChainyBlock := chainyBlockNew 0 0

theorem C4_build_proof_of_work_witness :
    ∃ b n, chainyBuild demoHasher emptyStorage c4Block none 7 (some "B") 3 =
        some (b, n) ∧
      ∃ s, b.hash = some s ∧ s.take ("B".length) = "B" := by
  refine ⟨_, _, rfl,
    (C4_build_proof_of_work demoHasher emptyStorage c4Block none 7 3).1 "B" _ _ rfl⟩

lemma chainyCommit_pool (st : Storage) (pool : List String) (blk : ChainyBlock) :
    (chainyCommit st pool blk).snd.fst =
      blk.txFamiliarHashes.foldl pendingRemove pool := rfl

lemma queueBuildCommit_resolved (H : Hasher) (st : Storage) (pool : List String)
    (blk : ChainyBlock) (ph : Option String) (seed : Nat) (pfx : Option String)
    (fuel : Nat) (st' : Storage) (pool' : List String) (b : ChainyBlock) (ok : Bool)
    (h : queueBuildCommit H st pool blk ph seed pfx fuel =
      some (st', pool', some (b, ok))) :
    b.previousHash = ph ∧ b.txFamiliarHashes = blk.txFamiliarHashes ∧
    pool' = blk.txFamiliarHashes.foldl pendingRemove pool := by
  unfold queueBuildCommit at h
  rcases hbuild : chainyBuild H st blk ph seed pfx fuel with _ | ⟨b0, n0⟩
  · rw [hbuild] at h; simp at h
  · rw [hbuild] at h
    simp only [Option.some.injEq, Prod.mk.injEq] at h
    obtain ⟨-, hpool, hb, -⟩ := h
    obtain ⟨g1, g2, -⟩ := chainyBuild_inv H st blk ph seed pfx fuel b0 n0 hbuild
    subst hb
    refine ⟨g1, g2, ?_⟩
    rw [← hpool, chainyCommit_pool, g2]

lemma queueBuildCommit_not_rejected (H : Hasher) (st : Storage) (pool : List String)
    (blk : ChainyBlock) (ph : Option String) (seed : Nat) (pfx : Option String)
    (fuel : Nat) (st' : Storage) (pool' : List String)
    (h : queueBuildCommit H st pool blk ph seed pfx fuel = some (st', pool', none)) :
    False := by
  unfold queueBuildCommit at h
  rcases hbuild : chainyBuild H st blk ph seed pfx fuel with _ | ⟨b0, n0⟩
  · rw [hbuild] at h; simp at h
  · rw [hbuild] at h; simp at h

/-- C1: a block sealed by the queue worker with index > 0 carries as
previousHash exactly the hash obtained by loading block index-1 from
storage and recomputing its content hash with forced reload; a sealed
index-0 block carries the null genesis sentinel, with no previous block
loaded. -/
theorem C1_sealed_previous_hash (H : Hasher) (st : Storage) (pool : List String)
    (blk : ChainyBlock) (seed : Nat) (pfx : Option String) (fuel : Nat) :
    (∀ st' pool' b ok, 0 < blk.index →
        queueStep H st pool blk seed pfx fuel = some (st', pool', some (b, ok)) →
        ∃ prev, chainyLoad st (chainyBlockNew (blk.index - 1) 0) = (prev, true) ∧
          b.previousHash = (chainyCalculateHash H st true prev).hash) ∧
    (∀ st' pool' b ok, blk.index = 0 →
        queueStep H st pool blk seed pfx fuel = some (st', pool', some (b, ok)) →
        b.previousHash = none) := by
  constructor
  · intro st' pool' b ok hpos h
    unfold queueStep at h
    rw [if_pos hpos] at h
    by_cases hsnd : (chainyLoad st (chainyBlockNew (blk.index - 1) 0)).snd = true
    · rw [if_pos hsnd] at h
      refine ⟨(chainyLoad st (chainyBlockNew (blk.index - 1) 0)).fst, ?_, ?_⟩
      · rw [← hsnd]
      · exact (queueBuildCommit_resolved H st pool blk _ seed pfx fuel st' pool' b ok h).1
    · rw [if_neg hsnd] at h
      simp at h
  · intro st' pool' b ok hzero h
    unfold queueStep at h
    rw [if_neg (by omega)] at h
    exact (queueBuildCommit_resolved H st pool blk none seed pfx fuel st' pool' b ok h).1

def c1Row : BlockRow :=
  { hash := some "H0", previousHash := none, length := 0, entropy := 5,
    timestamp := 9 }

def c1Storage : Storage :=
  { blockTable := [(0, c1Row)], blockTx := [(0, []), (1, [])], transIdx := [] }

def c1Block : ChainyBlock := chainyBlockNew 1 3

theorem C1_sealed_previous_hash_witness :
    ∃ st' pool' b ok,
      queueStep demoHasher c1Storage [] c1Block 4 none 2 =
        some (st', pool', some (b, ok)) ∧
      ∃ prev, chainyLoad c1Storage (chainyBlockNew (c1Block.index - 1) 0) =
          (prev, true) ∧
        b.previousHash = (chainyCalculateHash demoHasher c1Storage true prev).hash := by
  refine ⟨_, _, _, _, rfl,
    (C1_sealed_previous_hash demoHasher c1Storage [] c1Block 4 none 2).1 _ _ _ _
      (by decide) rfl⟩

lemma processTransactionPool_pendingPool (sys : Sys) :
    (processTransactionPool sys).fst.cs.pendingPool = sys.cs.pendingPool := by
  unfold processTransactionPool
  by_cases hc : (drainOf sys).completed = true
  · rw [if_pos hc]
    rfl
  · rw [if_neg hc]
    rfl

/-- C6 (amended): fingerprints of a block's transactions are spliced out
of the in-flight pool exactly when the queue worker reaches the block's
commit — on storage-commit success and failure alike; a previous-block
load failure rejects the job before commit and releases nothing; and
Chain.add itself only ever appends to the in-flight pool, never
releasing. -/
theorem C6_fingerprint_release (H : Hasher) (st : Storage) (pool : List String)
    (blk : ChainyBlock) (seed : Nat) (pfx : Option String) (fuel : Nat) :
    (∀ st' pool' b ok,
        queueStep H st pool blk seed pfx fuel = some (st', pool', some (b, ok)) →
        pool' = blk.txFamiliarHashes.foldl pendingRemove pool) ∧
    (∀ st' pool',
        queueStep H st pool blk seed pfx fuel = some (st', pool', none) →
        pool' = pool ∧ st' = st) ∧
    (∀ (sys : Sys) (tx : Transaction),
        (chainAdd sys tx).fst.cs.pendingPool = sys.cs.pendingPool ∨
        (chainAdd sys tx).fst.cs.pendingPool =
          sys.cs.pendingPool ++ [tx.familiarHash]) := by
  refine ⟨?_, ?_, ?_⟩
  · intro st' pool' b ok h
    unfold queueStep at h
    by_cases hpos : blk.index > 0
    · rw [if_pos hpos] at h
      by_cases hsnd : (chainyLoad st (chainyBlockNew (blk.index - 1) 0)).snd = true
      · rw [if_pos hsnd] at h
        exact (queueBuildCommit_resolved H st pool blk _ seed pfx fuel st' pool' b ok h).2.2
      · rw [if_neg hsnd] at h
        simp at h
    · rw [if_neg hpos] at h
      exact (queueBuildCommit_resolved H st pool blk none seed pfx fuel st' pool' b ok h).2.2
  · intro st' pool' h
    unfold queueStep at h
    by_cases hpos : blk.index > 0
    · rw [if_pos hpos] at h
      by_cases hsnd : (chainyLoad st (chainyBlockNew (blk.index - 1) 0)).snd = true
      · rw [if_pos hsnd] at h
        exact (queueBuildCommit_not_rejected H st pool blk _ seed pfx fuel
          st' pool' h).elim
      · rw [if_neg hsnd] at h
        simp only [Option.some.injEq, Prod.mk.injEq] at h
        obtain ⟨hst, hpool, -⟩ := h
        exact ⟨hpool.symm, hst.symm⟩
    · rw [if_neg hpos] at h
      exact (queueBuildCommit_not_rejected H st pool blk none seed pfx fuel
        st' pool' h).elim
  · intro sys tx
    unfold chainAdd
    by_cases hdup : sys.cs.pendingPool.contains tx.familiarHash = true
    · rw [if_pos hdup]
      exact Or.inl rfl
    · rw [if_neg hdup]
      by_cases hlen : (chainAddState sys tx).cs.transactionPool.length ≥
          (chainAddState sys tx).cs.maxBlockTransactions
      · rw [if_pos hlen]
        refine Or.inr ?_
        show (processTransactionPool (chainAddState sys tx)).fst.cs.pendingPool = _
        rw [processTransactionPool_pendingPool]
        rfl
      · rw [if_neg hlen]
        exact Or.inr rfl

def c6Block : ChainyBlock := { chainyBlockNew 1 0 with txFamiliarHashes := ["fp"] }

/-- C6 counterexample: the queue finishes processing the owning block of
the in-flight fingerprint "fp" with a previous-block load failure, and
the fingerprint is NOT released — refuting the claim that a load failure
releases it like a commit does. -/
theorem C6_counterexample_load_failure :
    queueStep demoHasher emptyStorage ["fp"] c6Block 3 none 2 =
      some (emptyStorage, ["fp"], none) := rfl

def c6wSt : Storage := { emptyStorage with blockTx := [(0, [])] }

def c6wBlock : ChainyBlock := { chainyBlockNew 0 0 with txFamiliarHashes := ["f"] }

theorem C6_fingerprint_release_witness :
    ∃ st' pool' b ok,
      queueStep demoHasher c6wSt ["f"] c6wBlock 4 none 2 =
        some (st', pool', some (b, ok)) ∧
      pool' = c6wBlock.txFamiliarHashes.foldl pendingRemove ["f"] := by
  refine ⟨_, _, _, _, rfl,
    (C6_fingerprint_release demoHasher c6wSt ["f"] c6wBlock 4 none 2).1 _ _ _ _ rfl⟩

/-- C8: exact characterization of Transaction construction.  A present
origin/destination failing the (unanchored) 64-hex-run account pattern
gives InvalidAccount; exactly one party set (both present ones valid)
gives MissingCounterparty; both parties present, equal and valid gives
SelfTransfer; a positive amount with both parties absent gives
AmountWithoutParties; construction succeeds in exactly the remaining
cases.  The validity side-conditions on the middle two reflect the
source's guard order: an invalid present account is reported as
InvalidAccount even when a counterparty is also missing or the parties
are equal. -/
theorem C8_transaction_validation (H : Hasher) (data : String)
    (origin destination : Option String) (nom : Int) (ts : Nat) :
    (transactionNew H data origin destination nom ts =
        .error .amountWithoutParties ↔
      nom > 0 ∧ origin = none ∧ destination = none) ∧
    (transactionNew H data origin destination nom ts = .error .invalidAccount ↔
      presentInvalid origin = true ∨ presentInvalid destination = true) ∧
    (transactionNew H data origin destination nom ts =
        .error .missingCounterparty ↔
      origin.isSome ≠ destination.isSome ∧ presentInvalid origin = false ∧
        presentInvalid destination = false) ∧
    (transactionNew H data origin destination nom ts = .error .selfTransfer ↔
      ∃ a, origin = some a ∧ destination = some a ∧ isValidAccount a = true) ∧
    ((∃ t, transactionNew H data origin destination nom ts = .ok t) ↔
      ¬(nom > 0 ∧ origin = none ∧ destination = none) ∧
        presentInvalid origin = false ∧ presentInvalid destination = false ∧
        origin.isSome = destination.isSome ∧
        ¬∃ a, origin = some a ∧ destination = some a) := by
  rcases origin with _ | o <;> rcases destination with _ | d
  · by_cases hn : nom > 0 <;>
      simp [transactionNew, presentInvalid, hn]
  · by_cases hv : isValidAccount d = true
    · simp [transactionNew, presentInvalid, hv]
    · simp only [Bool.not_eq_true] at hv
      simp [transactionNew, presentInvalid, hv]
  · by_cases hv : isValidAccount o = true
    · simp [transactionNew, presentInvalid, hv]
    · simp only [Bool.not_eq_true] at hv
      simp [transactionNew, presentInvalid, hv]
  · by_cases hvo : isValidAccount o = true
    · by_cases hvd : isValidAccount d = true
      · by_cases heq : d = o
        · subst heq
          simp [transactionNew, presentInvalid, hvo]
        · simp [transactionNew, presentInvalid, hvo, hvd, heq]
      · simp only [Bool.not_eq_true] at hvd
        simp [transactionNew, presentInvalid, hvo, hvd]
        intro hda
        subst hda
        simp_all
    · simp only [Bool.not_eq_true] at hvo
      simp [transactionNew, presentInvalid, hvo]

lemma transactionNew_familiarHash (H : Hasher) (data : String)
    (origin destination : Option String) (nom : Int) (ts : Nat)
    (t : Transaction)
    (h : transactionNew H data origin destination nom ts = .ok t) :
    t.familiarHash = H.famHash data origin destination nom := by
  unfold transactionNew at h
  split_ifs at h
  simp_all
  rw [← h]

lemma chainAdd_pending (sys : Sys) (tx : Transaction)
    (h : sys.cs.pendingPool.contains tx.familiarHash = true) :
    chainAdd sys tx = (sys, false) := by
  unfold chainAdd
  rw [if_pos h]

lemma chainAdd_not_pending (sys : Sys) (tx : Transaction)
    (h : sys.cs.pendingPool.contains tx.familiarHash = false) :
    (chainAdd sys tx).fst.cs.pendingPool =
      sys.cs.pendingPool ++ [tx.familiarHash] ∧ (chainAdd sys tx).snd = true := by
  unfold chainAdd
  rw [if_neg (by rw [h]; simp)]
  by_cases hlen : (chainAddState sys tx).cs.transactionPool.length ≥
      (chainAddState sys tx).cs.maxBlockTransactions
  · rw [if_pos hlen]
    refine ⟨?_, rfl⟩
    show (processTransactionPool (chainAddState sys tx)).fst.cs.pendingPool = _
    rw [processTransactionPool_pendingPool]
    rfl
  · rw [if_neg hlen]
    exact ⟨rfl, rfl⟩

/-- C3: two transactions constructed from the same (data, origin,
destination, amount) core share a familiar fingerprint, so once the
first has been accepted and its owning block is not yet committed (its
fingerprint still in `_pendingPool`), the second add returns false — no
error raised, the function returns totally — and leaves the whole chain
state (pending pool and in-flight fingerprint set included) unchanged. -/
theorem C3_duplicate_add_rejected (H : Hasher) (sys : Sys) (d : String)
    (o dst : Option String) (nom : Int) (ts1 ts2 : Nat) (t1 t2 : Transaction)
    (h1 : transactionNew H d o dst nom ts1 = .ok t1)
    (h2 : transactionNew H d o dst nom ts2 = .ok t2)
    (hacc : (chainAdd sys t1).snd = true) :
    chainAdd (chainAdd sys t1).fst t2 = ((chainAdd sys t1).fst, false) := by
  have hfam : t2.familiarHash = t1.familiarHash := by
    rw [transactionNew_familiarHash H d o dst nom ts1 t1 h1,
        transactionNew_familiarHash H d o dst nom ts2 t2 h2]
  by_cases hdup : sys.cs.pendingPool.contains t1.familiarHash = true
  · rw [chainAdd_pending sys t1 hdup] at hacc
    exact absurd hacc (by simp)
  · have hnp := chainAdd_not_pending sys t1 (by simpa using hdup)
    have hmem : t1.familiarHash ∈ (chainAdd sys t1).fst.cs.pendingPool := by
      rw [hnp.1]
      exact List.mem_append_right _ (List.mem_singleton.mpr rfl)
    apply chainAdd_pending
    rw [hfam]
    exact List.elem_eq_true_of_mem hmem

def c3Sys : Sys := chainInitialize false emptyStorage 10 none "" [] [] 0

def c3Tx1 : Transaction := plainTx "dup" 1

def c3Tx2 : Transaction := plainTx "dup" 2

theorem C3_duplicate_add_rejected_witness :
    chainAdd (chainAdd c3Sys c3Tx1).fst c3Tx2 = ((chainAdd c3Sys c3Tx1).fst, false) :=
  C3_duplicate_add_rejected demoHasher c3Sys "dup" none none 0 1 2 c3Tx1 c3Tx2
    rfl rfl rfl

lemma blockAdd_wb_index (st : Storage) (blk : ChainyBlock) (tx : Transaction)
    (pfx : String) (rej : Bool) :
    (blockAdd st blk tx pfx rej).snd.fst.index = blk.index := by
  cases rej <;> rfl

lemma drainLoop_shape (maxBT : Nat) (pfx : String) :
    ∀ (pool : List Transaction) (st : Storage) (wb : ChainyBlock)
      (rejects : List Bool) (count : Nat),
      (drainLoop maxBT pfx pool st wb rejects count).wb.index = wb.index ∧
      ∃ k, (drainLoop maxBT pfx pool st wb rejects count).pool = pool.drop k ∧
        ((drainLoop maxBT pfx pool st wb rejects count).completed = false →
          1 ≤ k) := by
  intro pool
  induction pool with
  | nil =>
    intro st wb rejects count
    refine ⟨rfl, 0, rfl, ?_⟩
    intro hfalse
    simp [drainLoop] at hfalse
  | cons t rest ih =>
    intro st wb rejects count
    by_cases hc : count < maxBT
    · rcases hadd : blockAdd st wb t pfx (rejects.headD false) with ⟨st', wbf⟩
      rcases wbf with ⟨wb', flag⟩
      have hwidx : wb'.index = wb.index := by
        have hbi := blockAdd_wb_index st wb t pfx (rejects.headD false)
        rw [hadd] at hbi
        exact hbi
      cases flag
      · have hres : drainLoop maxBT pfx (t :: rest) st wb rejects count =
            { pool := rest, st := st', wb := wb', rejects := rejects.tail,
              completed := false } := by
          simp only [drainLoop, hc, if_true, hadd]
        rw [hres]
        exact ⟨hwidx, 1, rfl, fun _ => le_refl 1⟩
      · have hres : drainLoop maxBT pfx (t :: rest) st wb rejects count =
            drainLoop maxBT pfx rest st' wb' rejects.tail (count + 1) := by
          simp only [drainLoop, hc, if_true, hadd]
        rw [hres]
        obtain ⟨hidx, k, hk, _⟩ := ih st' wb' rejects.tail (count + 1)
        refine ⟨hidx.trans hwidx, k + 1, ?_, fun _ => by omega⟩
        rw [hk]
        rfl
    · have hres : drainLoop maxBT pfx (t :: rest) st wb rejects count =
          { pool := t :: rest, st := st, wb := wb, rejects := rejects,
            completed := true } := by
        simp only [drainLoop, hc, if_false]
      rw [hres]
      refine ⟨rfl, 0, rfl, ?_⟩
      intro hfalse
      simp at hfalse

/-- C2 (amended): when an addTransaction fails mid-drain the rotation is
aborted — nothing is submitted to the queue, no blockSubmit event fires,
the working block is not replaced, the in-flight fingerprint pool is
untouched, and the transactions not yet shifted out of the pool remain
pooled (the pool becomes a drop of its former self, losing at least the
one failing transaction) — but the outer Chain.add call does NOT report
the failure: its result is determined solely by the duplicate check. -/
theorem C2_drain_failure (sys : Sys) (tx : Transaction) :
    ((chainAdd sys tx).snd = !(sys.cs.pendingPool.contains tx.familiarHash)) ∧
    (∀ s', processTransactionPool sys = (s', false) →
        s'.cs.submitted = sys.cs.submitted ∧
        s'.cs.blockSubmitEvents = sys.cs.blockSubmitEvents ∧
        s'.cs.workingBlock.index = sys.cs.workingBlock.index ∧
        s'.cs.pendingPool = sys.cs.pendingPool ∧
        ∃ k, 1 ≤ k ∧ s'.cs.transactionPool = sys.cs.transactionPool.drop k) := by
  constructor
  · cases hb : sys.cs.pendingPool.contains tx.familiarHash
    · rw [(chainAdd_not_pending sys tx hb).2]
      rfl
    · rw [chainAdd_pending sys tx hb]
      rfl
  · intro s' hp
    unfold processTransactionPool at hp
    by_cases hcomp : (drainOf sys).completed = true
    · rw [if_pos hcomp] at hp
      simp at hp
    · rw [if_neg hcomp] at hp
      have hs : afterDrain sys = s' := congrArg Prod.fst hp
      subst hs
      obtain ⟨hidx, k, hk, hkc⟩ := drainLoop_shape sys.cs.maxBlockTransactions
        sys.cs.transactionPrefix sys.cs.transactionPool sys.storage
        sys.cs.workingBlock sys.cs.rejects 0
      refine ⟨rfl, rfl, hidx, rfl, k, ?_, hk⟩
      apply hkc
      cases hfl : (drainOf sys).completed
      · exact hfl
      · exact absurd hfl hcomp

def c2Sys : Sys := chainInitialize false emptyStorage 1 none "" [5] [true] 0

def c2Tx : Transaction := plainTx "x" 1

/-- C2 counterexample: with maxBlockTransactions = 1 and the storage
insert of the only drained transaction rejecting, the drain aborts (no
block submitted, no rotation) and the failing transaction is silently
dropped from the pool — yet Chain.add still returns true, refuting "the
add call reports failure" and "every pooled transaction not yet added
remains in the pending pool". -/
theorem C2_counterexample_add_reports_true :
    (chainAdd c2Sys c2Tx).snd = true ∧
    (chainAdd c2Sys c2Tx).fst.cs.submitted = [] ∧
    (chainAdd c2Sys c2Tx).fst.cs.transactionPool = [] :=
  ⟨rfl, rfl, rfl⟩

theorem C2_drain_failure_witness :
    ((chainAdd c2Sys c2Tx).snd =
      !(c2Sys.cs.pendingPool.contains c2Tx.familiarHash)) ∧
    ∃ k, 1 ≤ k ∧
      (processTransactionPool (chainAddState c2Sys c2Tx)).fst.cs.transactionPool =
        (chainAddState c2Sys c2Tx).cs.transactionPool.drop k := by
  refine ⟨(C2_drain_failure c2Sys c2Tx).1, ?_⟩
  have h : processTransactionPool (chainAddState c2Sys c2Tx) =
      ((processTransactionPool (chainAddState c2Sys c2Tx)).fst, false) := rfl
  obtain ⟨-, -, -, -, k, hk1, hk2⟩ :=
    (C2_drain_failure (chainAddState c2Sys c2Tx) c2Tx).2 _ h
  exact ⟨k, hk1, hk2⟩

def scenarioTxs : List Transaction :=
  [plainTx "a" 201, plainTx "b" 202, plainTx "c" 203,
   plainTx "d" 204, plainTx "e" 205, plainTx "f" 206]

def addAll (sys : Sys) (txs : List Transaction) : Sys :=
  txs.foldl (fun s t => (chainAdd s t).fst) sys

/-- A fresh chain with maxBlockTransactions = 3, no proof-of-work, no
transaction prefix; entropy seeds for the two block submissions. -/
def scenarioStart : Sys := chainInitialize false emptyStorage 3 none "" [7, 11] [] 100

def scenarioFinal : Option Sys :=
  runQueue demoHasher 4 (addAll scenarioStart scenarioTxs)

/-- C7 (amended): chain.length counts the blocks the commit queue
finished processing during the current session and never counts the
open working block; on the fresh chain with maxBlockTransactions = 3,
adding 6 distinct transactions submits exactly blocks 0 and 1, and after
the queue drains (blockCommitQueueEmpty firing once) chain.length = 2,
which here coincides with the 2 committed block rows, while the open
working block has index 2. -/
theorem C7_length_scenario :
    scenarioFinal.map (fun s =>
      (s.cs.len, committedBlockCount s.storage, s.cs.workingBlock.index,
       s.cs.blockSubmitEvents, s.cs.blockCommitEvents, s.cs.queueEmptyEvents)) =
      some (2, 2, 2, [0, 1], [0, 1], 1) := rfl

def c7Row : BlockRow :=
  { hash := some "H0", previousHash := none, length := 0, entropy := 1,
    timestamp := 2 }

def c7Storage : Storage :=
  { blockTable := [(0, c7Row)], blockTx := [(0, [])], transIdx := [] }

def c7Resumed : Sys :=
  chainInitialize true c7Storage 3 none "" [] [] 0

/-- C7 counterexample: resuming a chain whose storage already holds one
committed block gives chain.length = 0 while the chain has 1 committed
block — the `_length` counter starts at 0 every session, refuting "at
all times chain.length equals the number of committed blocks". -/
theorem C7_counterexample_resume :
    c7Resumed.cs.len = 0 ∧ committedBlockCount c7Resumed.storage = 1 ∧
      c7Resumed.cs.workingBlock.index = 1 :=
  ⟨rfl, rfl, rfl⟩
